import Mathlib

/-!
# Software UART transmitter (`firmware/shared/uart_send.c`)

A shallow embedding of `uartInit` and `uartSend` for an 8-bit AVR.

* I/O registers and CPU registers are natural numbers; every register write
  stores a byte (`% 256`).
* The inline assembly of `uartSend` is embedded instruction by instruction,
  each instruction adding its fixed cycle cost to a cycle counter.  The two
  loops (`TxDelay`, `TxLoop`) are recursive functions bounded by a fuel
  argument; running out of fuel yields `none`.
* Every write to `PORTB` is appended to a log, together with the value of
  `DDRB`, the global interrupt flag, the cycle counter and the register
  holding `ch` at that moment.
* The cycle counter counts the instructions of the assembly block only
  (`cbi` 2 cycles, a taken `brne` 2 cycles, every other instruction 1 cycle);
  two further counters record the passes through each loop body.
* The macros that come from headers outside this file (`UART_TX`, `UART_RX`,
  `PCIE`, `TXDELAY`, and the feature switches) are fields of `Config`.
-/

namespace TinyUart

/-! ## Build configuration -/

/-- Values of the macros used by `uart_send.c` and defined in other headers. -/
structure Config where
  /-- Bit number of the transmit pin in port B. -/
  UART_TX : Nat
  /-- Bit number of the receive pin in port B. -/
  UART_RX : Nat
  /-- Bit number of the pin-change interrupt enable bit in `GIMSK`. -/
  PCIE : Nat
  /-- Delay count loaded into `r17`. -/
  TXDELAY : Nat
  /-- Whether `UART_TWOPIN` is defined. -/
  UART_TWOPIN : Bool
  /-- Whether `UART_ONEPIN` is defined. -/
  UART_ONEPIN : Bool
  /-- Whether `UART_INTERRUPT` is defined. -/
  UART_INTERRUPT : Bool
deriving DecidableEq

/-! ## Machine state -/

/-- One write to `PORTB`, with the context it happened in. -/
structure PortWrite where
  /-- The byte written to `PORTB`. -/
  value : Nat
  /-- The value of `DDRB` at the time of the write. -/
  ddrb : Nat
  /-- The global interrupt-enable flag at the time of the write. -/
  iflag : Bool
  /-- The cycle counter once the writing instruction has completed. -/
  cycle : Nat
  /-- The contents of the register holding `ch` at the time of the write. -/
  shift : Nat
deriving DecidableEq

/-- The part of the AVR state that the two functions read or write. -/
structure AVR where
  DDRB : Nat
  PORTB : Nat
  PCMSK : Nat
  GIMSK : Nat
  /-- Global interrupt-enable flag (bit `I` of `SREG`). -/
  I : Bool
  /-- The temporary register `__tmp_reg__`. -/
  r0 : Nat
  r16 : Nat
  r17 : Nat
  r18 : Nat
  /-- The register the compiler allocated to the operand `ch`. -/
  ch : Nat
  /-- Flag `T` of `SREG`. -/
  T : Bool
  /-- Flag `C` of `SREG`. -/
  C : Bool
  /-- Flag `Z` of `SREG`. -/
  Z : Bool
  /-- Cycles spent in instructions of the assembly block. -/
  cycles : Nat
  /-- Number of passes through the body of `TxLoop` so far. -/
  loopPasses : Nat
  /-- Number of passes through the body of `TxDelay` so far. -/
  delayPasses : Nat
  /-- Log of all writes to `PORTB`, oldest first. -/
  writes : List PortWrite
deriving DecidableEq

/-! ## Byte operations used by the C statements and the instructions -/

/-- The 8-bit result of `r | m`. -/
def byteOr (r m : Nat) : Nat := (r ||| m) % 256

/-- The 8-bit result of `r & ~m`. -/
def byteAndNot (r m : Nat) : Nat := r &&& (255 ^^^ (m % 256))

/-- The level of bit `b` of a register value. -/
def bitOf (r b : Nat) : Bool := r.testBit b

/-- Advance the cycle counter. -/
def tick (n : Nat) (s : AVR) : AVR := { s with cycles := s.cycles + n }

/-- Store a byte in `PORTB` and log the write. -/
def writePORTB (x : Nat) (s : AVR) : AVR :=
  { s with PORTB := x, writes := s.writes ++ [⟨x, s.DDRB, s.I, s.cycles, s.ch⟩] }

/-! ## `uartInit` -/

/-- `uartInit()`: lines 30-44. -/
def uartInit (cfg : Config) (s : AVR) : AVR :=
  -- DDRB &= ~(1 << UART_RX);
  let s := { s with DDRB := byteAndNot s.DDRB (1 <<< cfg.UART_RX) }
  -- PORTB &= ~(1 << UART_RX);
  let s := writePORTB (byteAndNot s.PORTB (1 <<< cfg.UART_RX)) s
  if cfg.UART_TWOPIN then
    -- DDRB |= (1 << UART_TX);
    let s := { s with DDRB := byteOr s.DDRB (1 <<< cfg.UART_TX) }
    -- PORTB |= (1 << UART_TX);
    let s := writePORTB (byteOr s.PORTB (1 <<< cfg.UART_TX)) s
    if cfg.UART_INTERRUPT then
      -- PCMSK |= (1 << UART_RX);
      let s := { s with PCMSK := byteOr s.PCMSK (1 <<< cfg.UART_RX) }
      -- GIMSK |= (1 << PCIE);
      { s with GIMSK := byteOr s.GIMSK (1 <<< cfg.PCIE) }
    else s
  else s

/-! ## Instructions of the assembly block -/

/-- Instruction `cli` (as the C intrinsic `cli()`). -/
def cli (s : AVR) : AVR := { s with I := false }

/-- Instruction `sei` (as the C intrinsic `sei()`). -/
def sei (s : AVR) : AVR := { s with I := true }

/-- Instruction `cbi PORTB, b`: clear bit `b` of `PORTB`; 2 cycles. -/
def cbi (b : Nat) (s : AVR) : AVR :=
  let s := tick 2 s
  writePORTB (byteAndNot s.PORTB (1 <<< b)) s

/-- Instruction `in __tmp_reg__, PORTB`; 1 cycle. -/
def in_r0 (s : AVR) : AVR := tick 1 { s with r0 := s.PORTB }

/-- Instruction `ldi r16, k`; 1 cycle. -/
def ldi_r16 (k : Nat) (s : AVR) : AVR := tick 1 { s with r16 := k % 256 }

/-- Instruction `ldi r17, k`; 1 cycle. -/
def ldi_r17 (k : Nat) (s : AVR) : AVR := tick 1 { s with r17 := k % 256 }

/-- Instruction `mov r18, r17`; 1 cycle. -/
def mov_r18_r17 (s : AVR) : AVR := tick 1 { s with r18 := s.r17 }

/-- Instruction `dec r18`: decrement modulo 256, set `Z` when the result is 0; 1 cycle. -/
def dec_r18 (s : AVR) : AVR :=
  let r := (s.r18 + 255) % 256
  tick 1 { s with r18 := r, Z := decide (r = 0) }

/-- Instruction `bst ch, b`: copy bit `b` of `ch` to flag `T`; 1 cycle. -/
def bst_ch (b : Nat) (s : AVR) : AVR := tick 1 { s with T := bitOf s.ch b }

/-- The effect of `bld` on a register value: bit `b` becomes `t`. -/
def bldByte (r b : Nat) (t : Bool) : Nat :=
  if t then byteOr r (1 <<< b) else byteAndNot r (1 <<< b)

/-- Instruction `bld __tmp_reg__, b`: copy flag `T` to bit `b` of `r0`; 1 cycle. -/
def bld_r0 (b : Nat) (s : AVR) : AVR := tick 1 { s with r0 := bldByte s.r0 b s.T }

/-- Instruction `lsr r16`: shift right, bit 0 goes to `C`, `Z` set when the result is 0;
1 cycle. -/
def lsr_r16 (s : AVR) : AVR :=
  let r := (s.r16 % 256) / 2
  tick 1 { s with r16 := r, C := bitOf s.r16 0, Z := decide (r = 0) }

/-- Instruction `ror ch`: rotate right through carry, `Z` set when the result is 0;
1 cycle. -/
def ror_ch (s : AVR) : AVR :=
  let r := (if s.C then 128 else 0) + (s.ch % 256) / 2
  tick 1 { s with ch := r, C := bitOf s.ch 0, Z := decide (r = 0) }

/-- Instruction `out PORTB, __tmp_reg__`; 1 cycle. -/
def out_r0 (s : AVR) : AVR := writePORTB s.r0 (tick 1 s)

/-- Instruction `brne`: the branch is taken when `Z` is clear. A taken branch costs
2 cycles, a branch not taken 1 cycle. -/
def brneTaken (s : AVR) : Bool := !s.Z

/-! ## The loops of the assembly block -/

/-- The loop at label `TxDelay` (lines 67-70): `dec r18; brne TxDelay`. -/
def txDelay : Nat → AVR → Option AVR
  | 0, _ => none
  | fuel + 1, s =>
    let s := dec_r18 { s with delayPasses := s.delayPasses + 1 }
    if brneTaken s then txDelay fuel (tick 2 s) else some (tick 1 s)

/-- One pass of the body of `TxLoop`, from `mov` (line 66) to `out` (line 75). -/
def txBody (cfg : Config) (fuel : Nat) (s : AVR) : Option AVR :=
  let s := mov_r18_r17 { s with loopPasses := s.loopPasses + 1 }
  match txDelay fuel s with
  | none => none
  | some s => some (out_r0 (ror_ch (lsr_r16 (bld_r0 cfg.UART_TX (bst_ch 0 s)))))

/-- The loop at label `TxLoop` (lines 64-76): the body followed by `brne TxLoop`. -/
def txLoop (cfg : Config) : Nat → AVR → Option AVR
  | 0, _ => none
  | fuel + 1, s =>
    match txBody cfg (fuel + 1) s with
    | none => none
    | some s => if brneTaken s then txLoop cfg fuel (tick 2 s) else some (tick 1 s)

/-- The assembly block of `uartSend` (lines 59-82), with `ch` in its register. -/
def txAsm (cfg : Config) (fuel : Nat) (s : AVR) : Option AVR :=
  let s := cbi cfg.UART_TX s
  let s := in_r0 s
  let s := ldi_r16 3 s
  let s := ldi_r17 cfg.TXDELAY s
  txLoop cfg fuel s

/-! ## `uartSend` -/

/-- `uartSend(ch)`: lines 52-89. `fuel` bounds the number of passes of each loop run. -/
def uartSend (cfg : Config) (fuel : Nat) (ch : Nat) (s : AVR) : Option AVR :=
  -- PORTB |= (1 << UART_TX);
  let s := writePORTB (byteOr s.PORTB (1 <<< cfg.UART_TX)) s
  -- DDRB |= (1 << UART_TX);   (UART_ONEPIN only)
  let s := if cfg.UART_ONEPIN then { s with DDRB := byteOr s.DDRB (1 <<< cfg.UART_TX) } else s
  let s := cli s
  match txAsm cfg fuel { s with ch := ch % 256 } with
  | none => none
  | some s =>
    let s := sei s
    if cfg.UART_ONEPIN then
      -- DDRB &= ~(1 << UART_TX);
      let s := { s with DDRB := byteAndNot s.DDRB (1 <<< cfg.UART_TX) }
      -- PORTB &= ~(1 << UART_TX);
      some (writePORTB (byteAndNot s.PORTB (1 <<< cfg.UART_TX)) s)
    else some s

/-- The TX levels of a list of port writes. -/
def levels (cfg : Config) (ws : List PortWrite) : List Bool :=
  ws.map (fun w => bitOf w.value cfg.UART_TX)

/-! ## Callers and observations -/

/-- A caller sending the bytes of a list one after the other with `uartSend`. -/
def sendAll (cfg : Config) (fuel : Nat) : List Nat → AVR → Option AVR
  | [], s => some s
  | v :: vs, s =>
    match uartSend cfg fuel v s with
    | none => none
    | some s => sendAll cfg fuel vs s

/-- The TX pin is an output driven high. -/
def txIdleHigh (cfg : Config) (s : AVR) : Prop :=
  bitOf s.DDRB cfg.UART_TX = true ∧ bitOf s.PORTB cfg.UART_TX = true

/-- The numbers of cycles between consecutive entries of a list of cycle stamps. -/
def gaps : List Nat → List Nat
  | a :: b :: rest => (b - a) :: gaps (b :: rest)
  | _ => []

/-- The bit period in cycles as stated in the comment at line 65 of the source:
`total = 7 + 3*txdelay`. -/
def bitPeriod (txdelay : Nat) : Nat := 7 + 3 * txdelay

/-- A two-pin build with interrupt-driven receive: TX on bit 1, RX on bit 0, `PCIE` = 5,
`TXDELAY` = 1. -/
def exTwoPin : Config :=
  { UART_TX := 1, UART_RX := 0, PCIE := 5, TXDELAY := 1,
    UART_TWOPIN := true, UART_ONEPIN := false, UART_INTERRUPT := true }

/-- A single-pin build with `UART_INTERRUPT` defined: TX and RX on bit 3, `PCIE` = 5,
`TXDELAY` = 2. -/
def exOnePin : Config :=
  { UART_TX := 3, UART_RX := 3, PCIE := 5, TXDELAY := 2,
    UART_TWOPIN := false, UART_ONEPIN := true, UART_INTERRUPT := true }

/-- A machine state with interrupts disabled, `DDRB` = 0x14 and `PORTB` = 0x11. -/
def exState : AVR :=
  { DDRB := 0x14, PORTB := 0x11, PCMSK := 0, GIMSK := 0, I := false,
    r0 := 0, r16 := 0, r17 := 0, r18 := 0, ch := 0, T := false, C := false, Z := false,
    cycles := 0, loopPasses := 0, delayPasses := 0, writes := [] }

/-! ## Closed forms used in the proofs -/

/-- Number of passes of the delay loop for a delay count `d` in `r17`. -/
def delayCount (d : Nat) : Nat := if d % 256 = 0 then 256 else d % 256

/-- The two registers `r16:ch` read as one 16-bit shift register. -/
def shiftWord (s : AVR) : Nat := s.r16 * 256 + s.ch

/-- The state when `out` of one pass of `TxLoop` has completed. -/
def afterBody (cfg : Config) (s : AVR) : AVR :=
  { s with
    PORTB := bldByte s.r0 cfg.UART_TX (bitOf s.ch 0)
    r0 := bldByte s.r0 cfg.UART_TX (bitOf s.ch 0)
    r16 := s.r16 / 2
    r18 := 0
    ch := shiftWord s / 2 % 256
    T := bitOf s.ch 0
    C := bitOf s.ch 0
    Z := decide (shiftWord s / 2 % 256 = 0)
    cycles := s.cycles + (3 * delayCount s.r17 + 5)
    loopPasses := s.loopPasses + 1
    delayPasses := s.delayPasses + delayCount s.r17
    writes := s.writes ++ [⟨bldByte s.r0 cfg.UART_TX (bitOf s.ch 0), s.DDRB, s.I,
      s.cycles + (3 * delayCount s.r17 + 5), shiftWord s / 2 % 256⟩] }

/-- The log entries of `n` consecutive passes of `TxLoop`, starting with shift register
contents `w` at cycle `c`, with delay count `d`. -/
def loopWrites (cfg : Config) (r0 ddrb : Nat) (i : Bool) (d : Nat) :
    Nat → Nat → Nat → List PortWrite
  | 0, _, _ => []
  | n + 1, w, c =>
    ⟨bldByte r0 cfg.UART_TX (bitOf w 0), ddrb, i, c + (3 * d + 5), w / 2 % 256⟩ ::
      loopWrites cfg r0 ddrb i d n (w / 2) (c + (3 * d + 7))

/-- The state when `TxLoop` exits after `n` passes with the branch taken and one last pass. -/
def loopEnd (cfg : Config) : Nat → AVR → AVR
  | 0, s => tick 1 (afterBody cfg s)
  | n + 1, s => loopEnd cfg n (tick 2 (afterBody cfg s))

/-- The state in which the assembly block of `uartSend` ends. -/
def asmEnd (cfg : Config) (s : AVR) : AVR :=
  { s with
    PORTB := bldByte (byteAndNot s.PORTB (1 <<< cfg.UART_TX)) cfg.UART_TX true
    r0 := bldByte (byteAndNot s.PORTB (1 <<< cfg.UART_TX)) cfg.UART_TX true
    r16 := 0
    r17 := cfg.TXDELAY % 256
    r18 := 0
    ch := 0
    T := true
    C := true
    Z := true
    cycles := s.cycles + (10 * (3 * delayCount cfg.TXDELAY + 7) + 4)
    loopPasses := s.loopPasses + 10
    delayPasses := s.delayPasses + 10 * delayCount cfg.TXDELAY
    writes := s.writes ++
      ⟨byteAndNot s.PORTB (1 <<< cfg.UART_TX), s.DDRB, s.I, s.cycles + 2, s.ch⟩ ::
      loopWrites cfg (byteAndNot s.PORTB (1 <<< cfg.UART_TX)) s.DDRB s.I
        (delayCount cfg.TXDELAY) 10 (3 * 256 + s.ch) (s.cycles + 5) }

/-- The value of `DDRB` during the assembly block of `uartSend`. -/
def sendDDRB (cfg : Config) (s : AVR) : Nat :=
  if cfg.UART_ONEPIN then byteOr s.DDRB (1 <<< cfg.UART_TX) else s.DDRB

/-- The value of `PORTB` once `cbi` has driven the start bit. -/
def startPORTB (cfg : Config) (s : AVR) : Nat :=
  byteAndNot (byteOr s.PORTB (1 <<< cfg.UART_TX)) (1 <<< cfg.UART_TX)

/-- The number of cycles of the assembly block of `uartSend`. -/
def asmCycles (cfg : Config) : Nat := 10 * (3 * delayCount cfg.TXDELAY + 7) + 4

/-- The log entries of the assembly block of `uartSend(v)`: `cbi` and the passes of
`TxLoop`. -/
def asmWrites (cfg : Config) (v : Nat) (s : AVR) : List PortWrite :=
  ⟨startPORTB cfg s, sendDDRB cfg s, false, s.cycles + 2, v % 256⟩ ::
    loopWrites cfg (startPORTB cfg s) (sendDDRB cfg s) false (delayCount cfg.TXDELAY) 10
      (3 * 256 + v % 256) (s.cycles + 5)

/-- The log entries of the C statements after `sei()` in `uartSend`. -/
def releaseWrites (cfg : Config) (s : AVR) : List PortWrite :=
  if cfg.UART_ONEPIN then
    [⟨byteAndNot (bldByte (startPORTB cfg s) cfg.UART_TX true) (1 <<< cfg.UART_TX),
      byteAndNot (sendDDRB cfg s) (1 <<< cfg.UART_TX), true, s.cycles + asmCycles cfg, 0⟩]
  else []

/-- The state in which `uartSend(v)` returns when started in `s`. -/
def sendEnd (cfg : Config) (v : Nat) (s : AVR) : AVR :=
  { s with
    DDRB := if cfg.UART_ONEPIN then byteAndNot (sendDDRB cfg s) (1 <<< cfg.UART_TX)
      else s.DDRB
    PORTB := if cfg.UART_ONEPIN then
        byteAndNot (bldByte (startPORTB cfg s) cfg.UART_TX true) (1 <<< cfg.UART_TX)
      else bldByte (startPORTB cfg s) cfg.UART_TX true
    I := true
    r0 := bldByte (startPORTB cfg s) cfg.UART_TX true
    r16 := 0
    r17 := cfg.TXDELAY % 256
    r18 := 0
    ch := 0
    T := true
    C := true
    Z := true
    cycles := s.cycles + asmCycles cfg
    loopPasses := s.loopPasses + 10
    delayPasses := s.delayPasses + 10 * delayCount cfg.TXDELAY
    writes := s.writes ++
      ⟨byteOr s.PORTB (1 <<< cfg.UART_TX), s.DDRB, s.I, s.cycles, s.ch⟩ ::
        (asmWrites cfg v s ++ releaseWrites cfg s) }

/-! ## The loops and the assembly block in closed form -/

/-- The delay loop entered with `r18 = n mod 256` (`n` from 1 to 256) and fuel at least `n`
exits after `n` passes and `3 * n - 1` cycles, with `r18 = 0`. -/
theorem txDelay_run (n : Nat) : ∀ (fuel : Nat) (s : AVR), 1 ≤ n → n ≤ 256 →
    s.r18 = n % 256 → n ≤ fuel →
    txDelay fuel s = some { s with r18 := 0, Z := true, cycles := s.cycles + (3 * n - 1),
                                   delayPasses := s.delayPasses + n } := by
  induction n with
  | zero => intro fuel s h; omega
  | succ m ih =>
    intro fuel s _ hm hr hf
    obtain ⟨f, rfl⟩ : ∃ f, fuel = f + 1 := ⟨fuel - 1, by omega⟩
    by_cases h0 : m = 0
    · subst h0
      simp [txDelay, dec_r18, brneTaken, tick, hr]
    · have hne : (m + 1) % 256 + 255 ≠ 0 := by omega
      have hz : ((m + 1) % 256 + 255) % 256 = m % 256 := by omega
      have hmz : m % 256 ≠ 0 := by omega
      have := ih f (tick 2 (dec_r18 { s with delayPasses := s.delayPasses + 1 })) (by omega) (by omega)
        (by simp [dec_r18, tick, hr, hz]) (by omega)
      simp only [txDelay]
      simp [brneTaken, dec_r18, tick, hr, hz, hmz] at this ⊢
      rw [this]
      simp
      omega

theorem delayCount_pos (d : Nat) : 1 ≤ delayCount d := by
  unfold delayCount; split <;> omega

theorem delayCount_le (d : Nat) : delayCount d ≤ 256 := by
  unfold delayCount; split <;> omega

theorem delayCount_mod (d : Nat) (h : d < 256) : d = delayCount d % 256 := by
  unfold delayCount; split <;> omega

/-- One pass of the body of `TxLoop`, given enough fuel for the delay loop. -/
theorem txBody_eq (cfg : Config) (fuel : Nat) (s : AVR) (h17 : s.r17 < 256)
    (h16 : s.r16 < 256) (hch : s.ch < 256) (hf : delayCount s.r17 ≤ fuel) :
    txBody cfg fuel s = some (afterBody cfg s) := by
  have hd := txDelay_run (delayCount s.r17) fuel
    (mov_r18_r17 { s with loopPasses := s.loopPasses + 1 })
    (delayCount_pos _) (delayCount_le _)
    (by simpa [mov_r18_r17, tick] using delayCount_mod _ h17) hf
  have hshift : (if bitOf s.r16 0 = true then 128 else 0) + s.ch % 256 / 2
      = shiftWord s / 2 % 256 := by
    unfold shiftWord bitOf
    rw [Nat.testBit_zero]
    by_cases h : s.r16 % 2 = 1 <;> simp [h] <;> omega
  simp only [txBody]
  rw [hd]
  clear hd
  simp only [out_r0, ror_ch, lsr_r16, bld_r0, bst_ch, mov_r18_r17, tick, writePORTB, afterBody]
  simp only [hshift]
  simp [Nat.mod_eq_of_lt h16]
  have := delayCount_pos s.r17
  omega

/-- One unfolding of `TxLoop`: the branch back is taken exactly when the shifted byte is not
zero. -/
theorem txLoop_step (cfg : Config) (fuel : Nat) (s : AVR) (h17 : s.r17 < 256)
    (h16 : s.r16 < 256) (hch : s.ch < 256) (hf : delayCount s.r17 ≤ fuel + 1) :
    txLoop cfg (fuel + 1) s =
      if shiftWord s / 2 % 256 = 0 then some (tick 1 (afterBody cfg s))
      else txLoop cfg fuel (tick 2 (afterBody cfg s)) := by
  simp only [txLoop]
  rw [txBody_eq cfg (fuel + 1) s h17 h16 hch hf]
  by_cases h : shiftWord s / 2 % 256 = 0 <;> simp [brneTaken, afterBody, h]

theorem testBit_one_shiftLeft (b i : Nat) : (1 <<< b).testBit i = decide (b = i) := by
  rw [Nat.one_shiftLeft, Nat.testBit_two_pow]

theorem testBit_byteOr (r m i : Nat) :
    (byteOr r m).testBit i = (decide (i < 8) && (r.testBit i || m.testBit i)) := by
  unfold byteOr
  rw [show (256 : Nat) = 2 ^ 8 by norm_num, Nat.testBit_mod_two_pow, Nat.testBit_or]

theorem testBit_byteAndNot (r m i : Nat) :
    (byteAndNot r m).testBit i = (decide (i < 8) && (r.testBit i && !m.testBit i)) := by
  unfold byteAndNot
  rw [Nat.testBit_and, Nat.testBit_xor, show (255 : Nat) = 2 ^ 8 - 1 by norm_num,
    Nat.testBit_two_pow_sub_one, show (256 : Nat) = 2 ^ 8 by norm_num, Nat.testBit_mod_two_pow]
  by_cases h : i < 8 <;> simp [h]

theorem testBit_bldByte (r b i : Nat) (t : Bool) :
    (bldByte r b t).testBit i = (decide (i < 8) && (if b = i then t else r.testBit i)) := by
  unfold bldByte
  cases t
  · simp only [Bool.false_eq_true, if_false, testBit_byteAndNot, testBit_one_shiftLeft]
    by_cases h : b = i <;> simp [h]
  · simp only [if_true, testBit_byteOr, testBit_one_shiftLeft]
    by_cases h : b = i <;> simp [h]

/-- Writing a bit twice with `bld` keeps the second value only. -/
theorem bldByte_bldByte (r b : Nat) (x y : Bool) :
    bldByte (bldByte r b x) b y = bldByte r b y := by
  apply Nat.eq_of_testBit_eq
  intro i
  simp only [testBit_bldByte]
  by_cases h8 : i < 8 <;> by_cases h : b = i <;> simp [h8, h]

theorem bitOf_zero (x : Nat) : bitOf x 0 = decide (x % 2 = 1) := by
  unfold bitOf; rw [Nat.testBit_zero]

theorem shiftWord_afterBody (cfg : Config) (k : Nat) (s : AVR) (_h16 : s.r16 < 256)
    (hch : s.ch < 256) : shiftWord (tick k (afterBody cfg s)) = shiftWord s / 2 := by
  simp only [shiftWord, tick, afterBody]
  omega

theorem bitOf_shiftWord (s : AVR) : bitOf (shiftWord s) 0 = bitOf s.ch 0 := by
  simp only [bitOf_zero, shiftWord]
  congr 1
  apply propext
  omega

theorem loopWrites_bldByte (cfg : Config) (r0 ddrb : Nat) (i x : Bool) (d n : Nat) :
    ∀ w c, loopWrites cfg (bldByte r0 cfg.UART_TX x) ddrb i d n w c
      = loopWrites cfg r0 ddrb i d n w c := by
  induction n with
  | zero => intro w c; rfl
  | succ n ih => intro w c; simp only [loopWrites, bldByte_bldByte, ih]

/-- If the shifted byte is non-zero after each of the first `n` passes and zero after pass
`n + 1`, then `TxLoop` exits after `n + 1` passes. -/
theorem txLoop_run (cfg : Config) (n : Nat) : ∀ (fuel : Nat) (s : AVR), s.r17 < 256 →
    s.r16 < 256 → s.ch < 256 →
    (∀ j, 1 ≤ j → j ≤ n → shiftWord s / 2 ^ j % 256 ≠ 0) →
    shiftWord s / 2 ^ (n + 1) % 256 = 0 → n + delayCount s.r17 ≤ fuel →
    txLoop cfg fuel s = some (loopEnd cfg n s) := by
  induction n with
  | zero =>
    intro fuel s h17 h16 hch _ hz hf
    have := delayCount_pos s.r17
    obtain ⟨f, rfl⟩ : ∃ f, fuel = f + 1 := ⟨fuel - 1, by omega⟩
    rw [txLoop_step cfg f s h17 h16 hch (by omega)]
    simp only [zero_add, pow_one] at hz
    simp [hz, loopEnd]
  | succ n ih =>
    intro fuel s h17 h16 hch hnz hz hf
    obtain ⟨f, rfl⟩ : ∃ f, fuel = f + 1 := ⟨fuel - 1, by omega⟩
    rw [txLoop_step cfg f s h17 h16 hch (by omega)]
    have h1 := hnz 1 (le_refl 1) (by omega)
    simp only [pow_one] at h1
    rw [if_neg h1]
    have hw := shiftWord_afterBody cfg 2 s h16 hch
    have hdiv : ∀ j, shiftWord s / 2 / 2 ^ j = shiftWord s / 2 ^ (j + 1) := by
      intro j; rw [Nat.div_div_eq_div_mul, pow_succ, Nat.mul_comm]
    rw [loopEnd]
    apply ih
    · simpa [tick, afterBody] using h17
    · simp only [tick, afterBody]; omega
    · simp only [tick, afterBody]; omega
    · intro j hj1 hjn
      rw [hw, hdiv]
      exact hnz (j + 1) (by omega) (by omega)
    · rw [hw, hdiv]; exact hz
    · simp only [tick, afterBody]; omega

/-- The state after `n + 1` passes of `TxLoop`, in closed form. -/
theorem loopEnd_eq (cfg : Config) (n : Nat) : ∀ (s : AVR), s.r16 < 256 → s.ch < 256 →
    loopEnd cfg n s = { s with
      PORTB := bldByte s.r0 cfg.UART_TX (bitOf (shiftWord s / 2 ^ n) 0)
      r0 := bldByte s.r0 cfg.UART_TX (bitOf (shiftWord s / 2 ^ n) 0)
      r16 := s.r16 / 2 ^ (n + 1)
      r18 := 0
      ch := shiftWord s / 2 ^ (n + 1) % 256
      T := bitOf (shiftWord s / 2 ^ n) 0
      C := bitOf (shiftWord s / 2 ^ n) 0
      Z := decide (shiftWord s / 2 ^ (n + 1) % 256 = 0)
      cycles := s.cycles + ((n + 1) * (3 * delayCount s.r17 + 7) - 1)
      loopPasses := s.loopPasses + (n + 1)
      delayPasses := s.delayPasses + (n + 1) * delayCount s.r17
      writes := s.writes ++ loopWrites cfg s.r0 s.DDRB s.I (delayCount s.r17) (n + 1)
        (shiftWord s) s.cycles } := by
  induction n with
  | zero =>
    intro s h16 hch
    simp [loopEnd, tick, afterBody, loopWrites, bitOf_shiftWord]
    omega
  | succ n ih =>
    intro s h16 hch
    have hw := shiftWord_afterBody cfg 2 s h16 hch
    have hdiv : ∀ j, shiftWord s / 2 / 2 ^ j = shiftWord s / 2 ^ (j + 1) := by
      intro j; rw [Nat.div_div_eq_div_mul, pow_succ, Nat.mul_comm]
    have hdiv16 : ∀ j, s.r16 / 2 / 2 ^ j = s.r16 / 2 ^ (j + 1) := by
      intro j; rw [Nat.div_div_eq_div_mul, pow_succ, Nat.mul_comm]
    rw [loopEnd, ih _ (by simp only [tick, afterBody]; omega)
      (by simp only [tick, afterBody]; omega), hw]
    simp only [hdiv]
    simp only [tick, afterBody, bldByte_bldByte, hdiv16, loopWrites_bldByte]
    have hc : s.cycles + (3 * delayCount s.r17 + 5) + 2
        = s.cycles + (3 * delayCount s.r17 + 7) := by omega
    rw [show loopWrites cfg s.r0 s.DDRB s.I (delayCount s.r17) (n + 1 + 1) (shiftWord s) s.cycles
      = ⟨bldByte s.r0 cfg.UART_TX (bitOf (shiftWord s) 0), s.DDRB, s.I,
            s.cycles + (3 * delayCount s.r17 + 5), shiftWord s / 2 % 256⟩ ::
          loopWrites cfg s.r0 s.DDRB s.I (delayCount s.r17) (n + 1) (shiftWord s / 2)
            (s.cycles + (3 * delayCount s.r17 + 7)) from rfl, hc]
    simp [bitOf_shiftWord]
    refine ⟨?_, ?_, ?_⟩
    · have : (n + 1 + 1) * (3 * delayCount s.r17 + 7)
          = (n + 1) * (3 * delayCount s.r17 + 7) + (3 * delayCount s.r17 + 7) := by ring
      have hpos := Nat.mul_le_mul (show 1 ≤ n + 1 by omega) (le_refl (3 * delayCount s.r17 + 7))
      omega
    · omega
    · ring

theorem delayCount_mod_256 (d : Nat) : delayCount (d % 256) = delayCount d := by
  simp [delayCount]

theorem frame_shift_ne (v j : Nat) (hv : v < 256) (h1 : 1 ≤ j) (h9 : j ≤ 9) :
    (3 * 256 + v) / 2 ^ j % 256 ≠ 0 := by
  interval_cases j <;> norm_num <;> omega

theorem frame_shift_end (v : Nat) (hv : v < 256) : (3 * 256 + v) / 2 ^ (9 + 1) % 256 = 0 := by
  norm_num; omega

/-- The assembly block returns, in the state `asmEnd`, for every byte in the register `ch`. -/
theorem txAsm_eq (cfg : Config) (fuel : Nat) (s : AVR) (hch : s.ch < 256)
    (hf : 9 + delayCount cfg.TXDELAY ≤ fuel) :
    txAsm cfg fuel s = some (asmEnd cfg s) := by
  have hmod : cfg.TXDELAY % 256 < 256 := Nat.mod_lt _ (by norm_num)
  simp only [txAsm]
  rw [txLoop_run cfg 9 fuel _ (by simpa [ldi_r17, tick] using hmod)
    (by simp [ldi_r17, ldi_r16, tick]) (by simpa [ldi_r17, ldi_r16, in_r0, cbi, writePORTB, tick] using hch)
    (by
      intro j h1 h9
      simpa [shiftWord, ldi_r17, ldi_r16, in_r0, cbi, writePORTB, tick]
        using frame_shift_ne s.ch j hch h1 h9)
    (by
      simpa [shiftWord, ldi_r17, ldi_r16, in_r0, cbi, writePORTB, tick]
        using frame_shift_end s.ch hch)
    (by simpa [ldi_r17, tick, delayCount_mod_256] using hf)]
  rw [loopEnd_eq cfg 9 _ (by simp [ldi_r17, ldi_r16, tick])
    (by simpa [ldi_r17, ldi_r16, in_r0, cbi, writePORTB, tick] using hch)]
  have hbit : bitOf ((3 * 256 + s.ch) / 2 ^ 9) 0 = true := by
    rw [bitOf_zero]; norm_num; omega
  have hend := frame_shift_end s.ch hch
  simp only [Nat.reduceAdd] at hend
  simp only [shiftWord, ldi_r17, ldi_r16, in_r0, cbi, writePORTB, tick, asmEnd,
    delayCount_mod_256, Nat.reduceAdd, Nat.reduceMod, hbit, hend]
  simp
  omega

/-- With enough fuel `uartSend` returns, and it returns the state `sendEnd`. -/
theorem uartSend_eq (cfg : Config) (fuel v : Nat) (s : AVR)
    (hf : 9 + delayCount cfg.TXDELAY ≤ fuel) :
    uartSend cfg fuel v s = some (sendEnd cfg v s) := by
  have hmod : v % 256 < 256 := Nat.mod_lt _ (by norm_num)
  simp only [uartSend]
  rw [txAsm_eq cfg fuel _ hmod hf]
  cases h1 : cfg.UART_ONEPIN <;>
    simp [sendEnd, asmEnd, asmWrites, releaseWrites, sendDDRB, startPORTB, asmCycles,
      cli, sei, writePORTB, h1]

theorem delayCount_fuel (cfg : Config) (fuel : Nat) (hf : 265 ≤ fuel) :
    9 + delayCount cfg.TXDELAY ≤ fuel := by
  have := delayCount_le cfg.TXDELAY
  omega

theorem bitOf_bldByte_self (r b : Nat) (t : Bool) (hb : b < 8) :
    bitOf (bldByte r b t) b = t := by
  simp [bitOf, testBit_bldByte, hb]

/-- Bit `k` of the frame word `0b11vvvvvvvv`: bit `k` of `v` for `k < 8`, then two 1 bits. -/
theorem frame_bit (v k : Nat) : bitOf ((3 * 256 + v % 256) / 2 ^ k) 0
    = if k < 8 then v.testBit k else decide (k < 10) := by
  rw [bitOf_zero, Nat.testBit_to_div_mod]
  by_cases h8 : k < 8
  · rw [if_pos h8]
    congr 1
    apply propext
    interval_cases k <;> norm_num <;> omega
  · rw [if_neg h8]
    by_cases h10 : k < 10
    · have : k = 8 ∨ k = 9 := by omega
      rcases this with rfl | rfl <;> norm_num <;> omega
    · simp only [h10, decide_False, decide_eq_false_iff_not]
      have hpow : 2 ^ 10 ≤ 2 ^ k := Nat.pow_le_pow_right (by norm_num) (by omega)
      have : (3 * 256 + v % 256) / 2 ^ k = 0 := by
        apply Nat.div_eq_of_lt
        omega
      rw [this]; norm_num

theorem levels_loopWrites (cfg : Config) (r0 ddrb : Nat) (i : Bool) (d : Nat)
    (htx : cfg.UART_TX < 8) (n : Nat) : ∀ w c,
    levels cfg (loopWrites cfg r0 ddrb i d n w c)
      = (List.range n).map (fun k => bitOf (w / 2 ^ k) 0) := by
  induction n with
  | zero => intro w c; rfl
  | succ n ih =>
    intro w c
    have ih2 := ih (w / 2) (c + (3 * d + 7))
    simp only [levels] at ih2 ⊢
    rw [List.range_succ_eq_map, loopWrites, List.map_cons, ih2, List.map_cons, List.map_map]
    simp only [bitOf_bldByte_self _ _ _ htx, pow_zero, Nat.div_one]
    congr 1
    apply List.map_congr_left
    intro k _
    simp [Nat.div_div_eq_div_mul, pow_succ, Nat.mul_comm]

/-! ## Facts about the log of one call -/

theorem loopWrites_context (cfg : Config) (r0 ddrb : Nat) (i : Bool) (d n : Nat) :
    ∀ w c, ∀ x ∈ loopWrites cfg r0 ddrb i d n w c, x.iflag = i ∧ x.ddrb = ddrb := by
  induction n with
  | zero => intro w c x hx; simp [loopWrites] at hx
  | succ n ih =>
    intro w c x hx
    simp only [loopWrites, List.mem_cons] at hx
    rcases hx with rfl | hx
    · exact ⟨rfl, rfl⟩
    · exact ih _ _ x hx

theorem length_loopWrites (cfg : Config) (r0 ddrb : Nat) (i : Bool) (d n : Nat) :
    ∀ w c, (loopWrites cfg r0 ddrb i d n w c).length = n := by
  induction n with
  | zero => intro w c; rfl
  | succ n ih => intro w c; simp [loopWrites, ih]

theorem cycle_loopWrites (cfg : Config) (r0 ddrb : Nat) (i : Bool) (d n : Nat) :
    ∀ w w' c, (loopWrites cfg r0 ddrb i d n w c).map (fun x => x.cycle)
      = (loopWrites cfg r0 ddrb i d n w' c).map (fun x => x.cycle) := by
  induction n with
  | zero => intro w w' c; rfl
  | succ n ih => intro w w' c; simp only [loopWrites, List.map_cons, ih (w / 2) (w' / 2)]

theorem asmWrites_context (cfg : Config) (v : Nat) (s : AVR) :
    ∀ x ∈ asmWrites cfg v s, x.iflag = false ∧ x.ddrb = sendDDRB cfg s := by
  intro x hx
  simp only [asmWrites, List.mem_cons] at hx
  rcases hx with rfl | hx
  · exact ⟨rfl, rfl⟩
  · exact loopWrites_context _ _ _ _ _ _ _ _ x hx

theorem length_asmWrites (cfg : Config) (v : Nat) (s : AVR) :
    (asmWrites cfg v s).length = 11 := by
  simp [asmWrites, length_loopWrites]

theorem bitOf_startPORTB (cfg : Config) (s : AVR) :
    bitOf (startPORTB cfg s) cfg.UART_TX = false := by
  simp [bitOf, startPORTB, testBit_byteAndNot, testBit_one_shiftLeft]

theorem bitOf_byteOr_self (r b : Nat) (hb : b < 8) : bitOf (byteOr r (1 <<< b)) b = true := by
  simp [bitOf, testBit_byteOr, testBit_one_shiftLeft, hb]

theorem bitOf_byteAndNot_self (r b : Nat) : bitOf (byteAndNot r (1 <<< b)) b = false := by
  simp [bitOf, testBit_byteAndNot, testBit_one_shiftLeft]

theorem levels_asmWrites (cfg : Config) (v : Nat) (s : AVR) (htx : cfg.UART_TX < 8) :
    levels cfg (asmWrites cfg v s) =
      [false, v.testBit 0, v.testBit 1, v.testBit 2, v.testBit 3, v.testBit 4, v.testBit 5,
        v.testBit 6, v.testBit 7, true, true] := by
  have h := levels_loopWrites cfg (startPORTB cfg s) (sendDDRB cfg s) false
    (delayCount cfg.TXDELAY) htx 10 (3 * 256 + v % 256) (s.cycles + 5)
  simp only [levels] at h ⊢
  rw [asmWrites, List.map_cons, h, bitOf_startPORTB]
  simp only [frame_bit]
  rfl

theorem releaseWrites_iflag (cfg : Config) (s : AVR) :
    ∀ w ∈ releaseWrites cfg s, w.iflag = true := by
  intro w hw
  unfold releaseWrites at hw
  split at hw
  · simp only [List.mem_singleton] at hw; rw [hw]
  · simp at hw

theorem length_releaseWrites (cfg : Config) (s : AVR) :
    (releaseWrites cfg s).length = if cfg.UART_ONEPIN then 1 else 0 := by
  unfold releaseWrites
  split <;> rfl

theorem txIdleHigh_uartInit (cfg : Config) (s : AVR) (htx : cfg.UART_TX < 8)
    (h2 : cfg.UART_TWOPIN = true) : txIdleHigh cfg (uartInit cfg s) := by
  cases hi : cfg.UART_INTERRUPT <;>
    simp [txIdleHigh, uartInit, writePORTB, h2, hi, bitOf_byteOr_self _ _ htx]

theorem txIdleHigh_sendEnd (cfg : Config) (v : Nat) (s : AVR) (htx : cfg.UART_TX < 8)
    (h1 : cfg.UART_ONEPIN = false) (h : txIdleHigh cfg s) : txIdleHigh cfg (sendEnd cfg v s) := by
  simp only [txIdleHigh, sendEnd, h1, Bool.false_eq_true, if_false]
  exact ⟨h.1, bitOf_bldByte_self _ _ _ htx⟩

theorem txIdleHigh_sendAll (cfg : Config) (fuel : Nat) (htx : cfg.UART_TX < 8)
    (h1 : cfg.UART_ONEPIN = false) (hf : 265 ≤ fuel) (vs : List Nat) :
    ∀ s, txIdleHigh cfg s → ∃ s', sendAll cfg fuel vs s = some s' ∧ txIdleHigh cfg s' := by
  induction vs with
  | nil => intro s h; exact ⟨s, rfl, h⟩
  | cons v vs ih =>
    intro s h
    simp only [sendAll, uartSend_eq cfg fuel v s (delayCount_fuel cfg fuel hf)]
    exact ih _ (txIdleHigh_sendEnd cfg v s htx h1 h)

theorem levels_frame_loopWrites (cfg : Config) (v r0 ddrb d c : Nat) (i : Bool)
    (htx : cfg.UART_TX < 8) :
    levels cfg (loopWrites cfg r0 ddrb i d 10 (3 * 256 + v % 256) c) =
      [v.testBit 0, v.testBit 1, v.testBit 2, v.testBit 3, v.testBit 4, v.testBit 5,
        v.testBit 6, v.testBit 7, true, true] := by
  rw [levels_loopWrites cfg r0 ddrb i d htx 10]
  simp only [frame_bit]
  rfl

theorem testBit_byteOr_other (r b i : Nat) (hi : i < 8) (h : i ≠ b) :
    bitOf (byteOr r (1 <<< b)) i = bitOf r i := by
  have h' : ¬ b = i := fun e => h e.symm
  unfold bitOf
  rw [testBit_byteOr, testBit_one_shiftLeft]
  simp [hi, h']

theorem testBit_byteAndNot_other (r b i : Nat) (hi : i < 8) (h : i ≠ b) :
    bitOf (byteAndNot r (1 <<< b)) i = bitOf r i := by
  have h' : ¬ b = i := fun e => h e.symm
  unfold bitOf
  rw [testBit_byteAndNot, testBit_one_shiftLeft]
  simp [hi, h']

theorem bitOf_byteOr_clear (r b i : Nat) (h : b ≠ i) (hr : bitOf r i = false) :
    bitOf (byteOr r (1 <<< b)) i = false := by
  unfold bitOf at hr ⊢
  rw [testBit_byteOr, testBit_one_shiftLeft]
  simp [h, hr]

theorem delayCount_eq (d : Nat) (h1 : 1 ≤ d) (h255 : d ≤ 255) : delayCount d = d := by
  unfold delayCount
  have : d % 256 = d := Nat.mod_eq_of_lt (by omega)
  rw [this, if_neg (by omega)]

theorem delayCount_eq_ite (d : Nat) (h255 : d ≤ 255) :
    delayCount d = if d = 0 then 256 else d := by
  unfold delayCount
  have : d % 256 = d := Nat.mod_eq_of_lt (by omega)
  rw [this]

/-- Consecutive `out` writes of `TxLoop` complete `3 * d + 7` cycles apart. -/
theorem gaps_loopWrites (cfg : Config) (r0 ddrb : Nat) (i : Bool) (d n : Nat) : ∀ w c,
    gaps ((loopWrites cfg r0 ddrb i d (n + 1) w c).map (fun x => x.cycle))
      = List.replicate n (3 * d + 7) := by
  induction n with
  | zero => intro w c; rfl
  | succ n ih =>
    intro w c
    have h := ih (w / 2) (c + (3 * d + 7))
    rw [loopWrites] at h ⊢
    rw [loopWrites, List.map_cons, List.map_cons, gaps, ← List.map_cons, h, List.replicate_succ]
    congr 1
    simp only
    omega

/-- The first `out` of `TxLoop` completes `c1 + (3 * d + 5) - c0` cycles after a write
stamped `c0`, when the loop is entered at cycle `c1`. -/
theorem gaps_cons_loopWrites (cfg : Config) (r0 ddrb : Nat) (i : Bool) (d n w c0 c1 : Nat) :
    gaps (c0 :: (loopWrites cfg r0 ddrb i d (n + 1) w c1).map (fun x => x.cycle))
      = (c1 + (3 * d + 5) - c0) :: List.replicate n (3 * d + 7) := by
  have h := gaps_loopWrites cfg r0 ddrb i d n w c1
  rw [loopWrites] at h ⊢
  rw [List.map_cons, gaps, ← List.map_cons, h]

/-- For `TXDELAY` from 1 to 255 the start bit of every frame is held `8 + 3 * TXDELAY`
cycles, from the end of `cbi` to the end of the first `out`, and every later level of the
bit loop `7 + 3 * TXDELAY` cycles. -/
theorem start_bit_hold (cfg : Config) (fuel v : Nat) (s : AVR)
    (h1 : 1 ≤ cfg.TXDELAY) (h255 : cfg.TXDELAY ≤ 255) (hf : 265 ≤ fuel) :
    ∃ s' w0 start outs post, uartSend cfg fuel v s = some s' ∧
      s'.writes = s.writes ++ w0 :: start :: (outs ++ post) ∧
      outs.length = 10 ∧
      post.length = (if cfg.UART_ONEPIN then 1 else 0) ∧
      gaps (start.cycle :: outs.map (fun w => w.cycle))
        = (8 + 3 * cfg.TXDELAY) :: List.replicate 9 (7 + 3 * cfg.TXDELAY) := by
  refine ⟨sendEnd cfg v s, ⟨byteOr s.PORTB (1 <<< cfg.UART_TX), s.DDRB, s.I, s.cycles, s.ch⟩,
    ⟨startPORTB cfg s, sendDDRB cfg s, false, s.cycles + 2, v % 256⟩,
    loopWrites cfg (startPORTB cfg s) (sendDDRB cfg s) false (delayCount cfg.TXDELAY) 10
      (3 * 256 + v % 256) (s.cycles + 5),
    releaseWrites cfg s, uartSend_eq cfg fuel v s (delayCount_fuel cfg fuel hf), rfl,
    length_loopWrites _ _ _ _ _ _ _ _, length_releaseWrites cfg s, ?_⟩
  rw [gaps_cons_loopWrites cfg _ _ _ _ 9, delayCount_eq _ h1 h255]
  congr 1
  · show s.cycles + 5 + (3 * cfg.TXDELAY + 5) - (s.cycles + 2) = 8 + 3 * cfg.TXDELAY
    omega
  · rw [Nat.add_comm]

/-- With `TXDELAY` fixed to a value `T` from 1 to 255, consecutive `out` writes of every
call of `uartSend` complete `bitPeriod T` cycles apart. -/
theorem out_gaps_bitPeriod (T : Nat) (h1 : 1 ≤ T) (h255 : T ≤ 255) (cfg : Config)
    (k v : Nat) (s : AVR) :
    ∃ s' w0 start outs post,
      uartSend { cfg with TXDELAY := T } (265 + k) v s = some s' ∧
      s'.writes = s.writes ++ w0 :: start :: (outs ++ post) ∧
      outs.length = 10 ∧
      gaps (outs.map (fun w => w.cycle)) = List.replicate 9 (bitPeriod T) := by
  refine ⟨sendEnd { cfg with TXDELAY := T } v s,
    ⟨byteOr s.PORTB (1 <<< cfg.UART_TX), s.DDRB, s.I, s.cycles, s.ch⟩,
    ⟨startPORTB { cfg with TXDELAY := T } s, sendDDRB { cfg with TXDELAY := T } s, false,
      s.cycles + 2, v % 256⟩,
    loopWrites { cfg with TXDELAY := T } (startPORTB { cfg with TXDELAY := T } s)
      (sendDDRB { cfg with TXDELAY := T } s) false (delayCount T) 10
      (3 * 256 + v % 256) (s.cycles + 5),
    releaseWrites { cfg with TXDELAY := T } s,
    uartSend_eq _ (265 + k) v s (delayCount_fuel _ _ (by omega)), rfl,
    length_loopWrites _ _ _ _ _ _ _ _, ?_⟩
  rw [gaps_loopWrites _ _ _ _ _ 9, delayCount_eq _ h1 h255, bitPeriod, Nat.add_comm]

theorem bitOf_bldByte_other (r b i : Nat) (t : Bool) (hi : i < 8) (h : i ≠ b) :
    bitOf (bldByte r b t) i = bitOf r i := by
  have h' : ¬ b = i := fun e => h e.symm
  unfold bitOf
  rw [testBit_bldByte]
  simp [hi, h']

theorem loopWrites_value_other (cfg : Config) (r0 ddrb : Nat) (b : Bool) (d n i : Nat)
    (hi : i < 8) (h : i ≠ cfg.UART_TX) :
    ∀ w c, ∀ x ∈ loopWrites cfg r0 ddrb b d n w c, bitOf x.value i = bitOf r0 i := by
  induction n with
  | zero => intro w c x hx; simp [loopWrites] at hx
  | succ n ih =>
    intro w c x hx
    simp only [loopWrites, List.mem_cons] at hx
    rcases hx with rfl | hx
    · exact bitOf_bldByte_other _ _ _ _ hi h
    · exact ih _ _ x hx

theorem bitOf_startPORTB_other (cfg : Config) (s : AVR) (i : Nat) (hi : i < 8)
    (h : i ≠ cfg.UART_TX) : bitOf (startPORTB cfg s) i = bitOf s.PORTB i := by
  rw [startPORTB, testBit_byteAndNot_other _ _ _ hi h, testBit_byteOr_other _ _ _ hi h]

theorem bitOf_sendDDRB_other (cfg : Config) (s : AVR) (i : Nat) (hi : i < 8)
    (h : i ≠ cfg.UART_TX) : bitOf (sendDDRB cfg s) i = bitOf s.DDRB i := by
  unfold sendDDRB
  split
  · exact testBit_byteOr_other _ _ _ hi h
  · rfl

theorem asmWrites_other (cfg : Config) (v : Nat) (s : AVR) (i : Nat) (hi : i < 8)
    (h : i ≠ cfg.UART_TX) :
    ∀ x ∈ asmWrites cfg v s,
      bitOf x.value i = bitOf s.PORTB i ∧ bitOf x.ddrb i = bitOf s.DDRB i := by
  intro x hx
  refine ⟨?_, ?_⟩
  · simp only [asmWrites, List.mem_cons] at hx
    rcases hx with rfl | hx
    · exact bitOf_startPORTB_other cfg s i hi h
    · rw [loopWrites_value_other cfg _ _ _ _ _ i hi h _ _ x hx]
      exact bitOf_startPORTB_other cfg s i hi h
  · rw [(asmWrites_context cfg v s x hx).2]
    exact bitOf_sendDDRB_other cfg s i hi h

theorem releaseWrites_other (cfg : Config) (s : AVR) (i : Nat) (hi : i < 8)
    (h : i ≠ cfg.UART_TX) :
    ∀ x ∈ releaseWrites cfg s,
      bitOf x.value i = bitOf s.PORTB i ∧ bitOf x.ddrb i = bitOf s.DDRB i := by
  intro x hx
  unfold releaseWrites at hx
  split at hx
  · simp only [List.mem_singleton] at hx
    subst hx
    exact ⟨by
      rw [testBit_byteAndNot_other _ _ _ hi h, bitOf_bldByte_other _ _ _ _ hi h]
      exact bitOf_startPORTB_other cfg s i hi h, by
      rw [testBit_byteAndNot_other _ _ _ hi h]
      exact bitOf_sendDDRB_other cfg s i hi h⟩
  · simp at hx

/-- The shifted byte logged at pass `k + 1` of `TxLoop` is the shift register contents
divided by `2 ^ (k + 1)`, modulo 256. -/
theorem shift_loopWrites (cfg : Config) (r0 ddrb : Nat) (i : Bool) (d n : Nat) : ∀ w c,
    (loopWrites cfg r0 ddrb i d n w c).map (fun x => x.shift)
      = (List.range n).map (fun k => w / 2 ^ (k + 1) % 256) := by
  induction n with
  | zero => intro w c; rfl
  | succ n ih =>
    intro w c
    rw [List.range_succ_eq_map, loopWrites, List.map_cons, ih (w / 2) (c + (3 * d + 7)),
      List.map_cons, List.map_map]
    simp only [zero_add, pow_one]
    congr 1
    apply List.map_congr_left
    intro k _
    simp [Nat.div_div_eq_div_mul, pow_succ, Nat.mul_comm]

/-! ## Claims -/

/-- C1: with TX a valid bit number and enough fuel, `uartSend(v)` returns, and the levels
it puts on the TX bit of `PORTB` are, in order: high (the write before `cli`), then inside
the interrupt-free timed sequence low (start bit), bits 0 to 7 of `v`, high (stop bit) and
high again; any write after the timed sequence happens with interrupts enabled again. -/
theorem C1_frame_levels (cfg : Config) (fuel v : Nat) (s : AVR) (htx : cfg.UART_TX < 8)
    (hf : 265 ≤ fuel) :
    ∃ s' w0 timed post, uartSend cfg fuel v s = some s' ∧
      s'.writes = s.writes ++ w0 :: (timed ++ post) ∧
      bitOf w0.value cfg.UART_TX = true ∧
      levels cfg timed =
        [false, v.testBit 0, v.testBit 1, v.testBit 2, v.testBit 3, v.testBit 4,
          v.testBit 5, v.testBit 6, v.testBit 7, true, true] ∧
      (∀ w ∈ timed, w.iflag = false) ∧ (∀ w ∈ post, w.iflag = true) := by
  exact ⟨sendEnd cfg v s, ⟨byteOr s.PORTB (1 <<< cfg.UART_TX), s.DDRB, s.I, s.cycles, s.ch⟩,
    asmWrites cfg v s, releaseWrites cfg s, uartSend_eq cfg fuel v s (delayCount_fuel cfg fuel hf),
    rfl, bitOf_byteOr_self _ _ htx, levels_asmWrites cfg v s htx,
    fun w hw => (asmWrites_context cfg v s w hw).1, releaseWrites_iflag cfg s⟩

/-- Witness for C1: the two-pin example sending 0xA5 from the example state. -/
theorem C1_frame_levels_witness :
    exTwoPin.UART_TX < 8 ∧ 265 ≤ 265 ∧
    ∃ s' w0 timed post, uartSend exTwoPin 265 0xA5 exState = some s' ∧
      s'.writes = exState.writes ++ w0 :: (timed ++ post) ∧
      bitOf w0.value exTwoPin.UART_TX = true ∧
      levels exTwoPin timed =
        [false, (0xA5).testBit 0, (0xA5).testBit 1, (0xA5).testBit 2, (0xA5).testBit 3,
          (0xA5).testBit 4, (0xA5).testBit 5, (0xA5).testBit 6, (0xA5).testBit 7, true, true] ∧
      (∀ w ∈ timed, w.iflag = false) ∧ (∀ w ∈ post, w.iflag = true) :=
  ⟨by decide, by decide, C1_frame_levels exTwoPin 265 0xA5 exState (by decide) (by decide)⟩

/-- C2: for any two values `v` and `w` sent from the same state with the same configuration,
`uartSend` returns after the same number of passes of the bit loop and the same number of
cycles in the assembly block, and every logged write completes at the same cycle. -/
theorem C2_duration_data_independent (cfg : Config) (fuel v w : Nat) (s : AVR)
    (hf : 265 ≤ fuel) :
    ∃ sv sw, uartSend cfg fuel v s = some sv ∧ uartSend cfg fuel w s = some sw ∧
      sv.loopPasses = sw.loopPasses ∧ sv.cycles = sw.cycles ∧
      sv.writes.map (fun x => x.cycle) = sw.writes.map (fun x => x.cycle) := by
  refine ⟨sendEnd cfg v s, sendEnd cfg w s, uartSend_eq cfg fuel v s (delayCount_fuel cfg fuel hf),
    uartSend_eq cfg fuel w s (delayCount_fuel cfg fuel hf), rfl, rfl, ?_⟩
  simp only [sendEnd, asmWrites, List.map_append, List.map_cons]
  rw [cycle_loopWrites cfg _ _ _ _ 10 (3 * 256 + v % 256) (3 * 256 + w % 256)]

/-- Witness for C2: the all-zero and the all-one byte in the two-pin example. -/
theorem C2_duration_data_independent_witness :
    265 ≤ 265 ∧
    ∃ sv sw, uartSend exTwoPin 265 0x00 exState = some sv ∧
      uartSend exTwoPin 265 0xFF exState = some sw ∧
      sv.loopPasses = sw.loopPasses ∧ sv.cycles = sw.cycles ∧
      sv.writes.map (fun x => x.cycle) = sw.writes.map (fun x => x.cycle) :=
  ⟨by decide, C2_duration_data_independent exTwoPin 265 0x00 0xFF exState (by decide)⟩

/-- C3: with enough fuel `uartSend(v)` returns; its log is the write before `cli`, then the
eleven writes of the assembly block (`cbi` for the start bit and the ten `out` of the bit
loop), then the release write of the single-pin build. The global interrupt flag is clear at
each of the eleven writes, and it is set at the later write and on return. -/
theorem C3_interrupts_off_during_frame (cfg : Config) (fuel v : Nat) (s : AVR)
    (hf : 265 ≤ fuel) :
    ∃ s' w0 timed post, uartSend cfg fuel v s = some s' ∧
      s'.writes = s.writes ++ w0 :: (timed ++ post) ∧
      timed.length = 11 ∧ post.length = (if cfg.UART_ONEPIN then 1 else 0) ∧
      (∀ w ∈ timed, w.iflag = false) ∧ (∀ w ∈ post, w.iflag = true) ∧ s'.I = true :=
  ⟨sendEnd cfg v s, ⟨byteOr s.PORTB (1 <<< cfg.UART_TX), s.DDRB, s.I, s.cycles, s.ch⟩,
    asmWrites cfg v s, releaseWrites cfg s,
    uartSend_eq cfg fuel v s (delayCount_fuel cfg fuel hf), rfl, length_asmWrites cfg v s,
    length_releaseWrites cfg s, fun w hw => (asmWrites_context cfg v s w hw).1,
    releaseWrites_iflag cfg s, rfl⟩

/-- Witness for C3: the single-pin example sending 0x5A. -/
theorem C3_interrupts_off_during_frame_witness :
    265 ≤ 265 ∧
    ∃ s' w0 timed post, uartSend exOnePin 265 0x5A exState = some s' ∧
      s'.writes = exState.writes ++ w0 :: (timed ++ post) ∧
      timed.length = 11 ∧ post.length = (if exOnePin.UART_ONEPIN then 1 else 0) ∧
      (∀ w ∈ timed, w.iflag = false) ∧ (∀ w ∈ post, w.iflag = true) ∧ s'.I = true :=
  ⟨by decide, C3_interrupts_off_during_frame exOnePin 265 0x5A exState (by decide)⟩

/-- C4, as stated, fails: called with the global interrupt flag clear, `uartSend` returns
with the flag set. -/
theorem C4_counterexample :
    exState.I = false ∧
      (uartSend exTwoPin 265 0x00 exState).map (fun s => s.I) = some true ∧
      (uartSend exTwoPin 265 0x00 exState).map (fun s => s.I) ≠ some exState.I := by
  decide

/-- C4, amended: with enough fuel `uartSend(v)` returns with the global interrupt flag set,
whatever the flag was before the call; so the prior state is restored exactly when
interrupts were enabled before the call. -/
theorem C4_interrupts_enabled_on_return (cfg : Config) (fuel v : Nat) (s : AVR)
    (hf : 265 ≤ fuel) :
    ∃ s', uartSend cfg fuel v s = some s' ∧ s'.I = true ∧ (s.I = true → s'.I = s.I) :=
  ⟨sendEnd cfg v s, uartSend_eq cfg fuel v s (delayCount_fuel cfg fuel hf), rfl,
    fun h => h.symm ▸ rfl⟩

/-- Witness for C4 amended: a call with interrupts enabled in the single-pin example. -/
theorem C4_interrupts_enabled_on_return_witness :
    265 ≤ 265 ∧ (sei exState).I = true ∧
    ∃ s', uartSend exOnePin 265 0x41 (sei exState) = some s' ∧ s'.I = true ∧
      s'.I = (sei exState).I :=
  ⟨by decide, by decide,
    (C4_interrupts_enabled_on_return exOnePin 265 0x41 (sei exState) (by decide)).elim
      fun s' h => ⟨s', h.1, h.2.1, h.2.2 (by decide)⟩⟩

/-- C5: in the two-pin build (`UART_TWOPIN` defined, `UART_ONEPIN` not, TX a valid bit
number) "TX is an output driven high" holds after `uartInit` from any state; if it holds
before `uartSend(v)` then the call returns and it holds again; hence it holds after
`uartInit` followed by any sequence of sends. -/
theorem C5_two_pin_idle_invariant (cfg : Config) (htx : cfg.UART_TX < 8)
    (h2 : cfg.UART_TWOPIN = true) (h1 : cfg.UART_ONEPIN = false) :
    (∀ s, txIdleHigh cfg (uartInit cfg s)) ∧
    (∀ fuel v s, 265 ≤ fuel → txIdleHigh cfg s →
      ∃ s', uartSend cfg fuel v s = some s' ∧ txIdleHigh cfg s') ∧
    (∀ fuel vs s, 265 ≤ fuel →
      ∃ s', sendAll cfg fuel vs (uartInit cfg s) = some s' ∧ txIdleHigh cfg s') :=
  ⟨fun s => txIdleHigh_uartInit cfg s htx h2,
    fun fuel v s hf h => ⟨sendEnd cfg v s, uartSend_eq cfg fuel v s (delayCount_fuel cfg fuel hf),
      txIdleHigh_sendEnd cfg v s htx h1 h⟩,
    fun fuel vs s hf => txIdleHigh_sendAll cfg fuel htx h1 hf vs _
      (txIdleHigh_uartInit cfg s htx h2)⟩

/-- Witness for C5: the two-pin example, initialised and then sending two bytes. -/
theorem C5_two_pin_idle_invariant_witness :
    exTwoPin.UART_TX < 8 ∧ exTwoPin.UART_TWOPIN = true ∧ exTwoPin.UART_ONEPIN = false ∧
    txIdleHigh exTwoPin (uartInit exTwoPin exState) ∧
    (∃ s', uartSend exTwoPin 265 0x48 (uartInit exTwoPin exState) = some s' ∧
      txIdleHigh exTwoPin s') ∧
    (∃ s', sendAll exTwoPin 265 [0x48, 0x69] (uartInit exTwoPin exState) = some s' ∧
      txIdleHigh exTwoPin s') :=
  ⟨by decide, by decide, by decide,
    (C5_two_pin_idle_invariant exTwoPin (by decide) (by decide) (by decide)).1 exState,
    (C5_two_pin_idle_invariant exTwoPin (by decide) (by decide) (by decide)).2.1 265 0x48
      (uartInit exTwoPin exState) (by decide)
      ((C5_two_pin_idle_invariant exTwoPin (by decide) (by decide) (by decide)).1 exState),
    (C5_two_pin_idle_invariant exTwoPin (by decide) (by decide) (by decide)).2.2 265
      [0x48, 0x69] exState (by decide)⟩

/-- C6: in the single-pin build (`UART_ONEPIN` defined, TX a valid bit number) `uartSend(v)`
returns from any state; bit TX of `DDRB` is 1 at each of the eleven writes of the timed
sequence (start bit, data bits, stop bit and the last pass), and on return bit TX of `DDRB`
and bit TX of `PORTB` are both 0. -/
theorem C6_single_pin_output_only_during_frame (cfg : Config) (fuel v : Nat) (s : AVR)
    (htx : cfg.UART_TX < 8) (h1 : cfg.UART_ONEPIN = true) (hf : 265 ≤ fuel) :
    ∃ s' w0 timed wr, uartSend cfg fuel v s = some s' ∧
      s'.writes = s.writes ++ w0 :: (timed ++ [wr]) ∧
      levels cfg timed =
        [false, v.testBit 0, v.testBit 1, v.testBit 2, v.testBit 3, v.testBit 4,
          v.testBit 5, v.testBit 6, v.testBit 7, true, true] ∧
      (∀ w ∈ timed, bitOf w.ddrb cfg.UART_TX = true) ∧
      bitOf s'.DDRB cfg.UART_TX = false ∧ bitOf s'.PORTB cfg.UART_TX = false := by
  refine ⟨sendEnd cfg v s, ⟨byteOr s.PORTB (1 <<< cfg.UART_TX), s.DDRB, s.I, s.cycles, s.ch⟩,
    asmWrites cfg v s,
    ⟨byteAndNot (bldByte (startPORTB cfg s) cfg.UART_TX true) (1 <<< cfg.UART_TX),
      byteAndNot (sendDDRB cfg s) (1 <<< cfg.UART_TX), true, s.cycles + asmCycles cfg, 0⟩,
    uartSend_eq cfg fuel v s (delayCount_fuel cfg fuel hf), ?_, levels_asmWrites cfg v s htx,
    ?_, ?_, ?_⟩
  · simp [sendEnd, releaseWrites, h1]
  · intro w hw
    rw [(asmWrites_context cfg v s w hw).2, sendDDRB, if_pos h1]
    exact bitOf_byteOr_self _ _ htx
  · simp only [sendEnd, h1, if_true]
    exact bitOf_byteAndNot_self _ _
  · simp only [sendEnd, h1, if_true]
    exact bitOf_byteAndNot_self _ _

/-- Witness for C6: the single-pin example sending 0x5A. -/
theorem C6_single_pin_output_only_during_frame_witness :
    exOnePin.UART_TX < 8 ∧ exOnePin.UART_ONEPIN = true ∧ 265 ≤ 265 ∧
    ∃ s' w0 timed wr, uartSend exOnePin 265 0x5A exState = some s' ∧
      s'.writes = exState.writes ++ w0 :: (timed ++ [wr]) ∧
      levels exOnePin timed =
        [false, (0x5A).testBit 0, (0x5A).testBit 1, (0x5A).testBit 2, (0x5A).testBit 3,
          (0x5A).testBit 4, (0x5A).testBit 5, (0x5A).testBit 6, (0x5A).testBit 7, true, true] ∧
      (∀ w ∈ timed, bitOf w.ddrb exOnePin.UART_TX = true) ∧
      bitOf s'.DDRB exOnePin.UART_TX = false ∧ bitOf s'.PORTB exOnePin.UART_TX = false :=
  ⟨by decide, by decide, by decide,
    C6_single_pin_output_only_during_frame exOnePin 265 0x5A exState (by decide) (by decide)
      (by decide)⟩

/-- C7, as stated, fails in the single-pin build: with `UART_INTERRUPT` defined and
`UART_TWOPIN` not, `uartInit` leaves bit RX of `PCMSK` and bit `PCIE` of `GIMSK` clear. -/
theorem C7_counterexample :
    exOnePin.UART_INTERRUPT = true ∧
      bitOf (uartInit exOnePin exState).PCMSK exOnePin.UART_RX = false ∧
      bitOf (uartInit exOnePin exState).GIMSK exOnePin.PCIE = false := by
  decide

/-- C7, amended: with `UART_INTERRUPT` defined and RX, `PCIE` valid bit numbers, `uartInit`
from any state sets bit RX of `PCMSK` and bit `PCIE` of `GIMSK` in the two-pin build; when
`UART_TWOPIN` is not defined it leaves `PCMSK` and `GIMSK` as they were. -/
theorem C7_pin_change_interrupt_two_pin_only (cfg : Config) (s : AVR)
    (hrx : cfg.UART_RX < 8) (hpcie : cfg.PCIE < 8) (hi : cfg.UART_INTERRUPT = true) :
    (cfg.UART_TWOPIN = true →
      bitOf (uartInit cfg s).PCMSK cfg.UART_RX = true ∧
      bitOf (uartInit cfg s).GIMSK cfg.PCIE = true) ∧
    (cfg.UART_TWOPIN = false →
      (uartInit cfg s).PCMSK = s.PCMSK ∧ (uartInit cfg s).GIMSK = s.GIMSK) := by
  constructor
  · intro h2
    simp [uartInit, writePORTB, h2, hi, bitOf_byteOr_self _ _ hrx, bitOf_byteOr_self _ _ hpcie]
  · intro h2
    simp [uartInit, writePORTB, h2]

/-- Witness for C7 amended: the two-pin example with interrupt-driven receive. -/
theorem C7_pin_change_interrupt_two_pin_only_witness :
    exTwoPin.UART_RX < 8 ∧ exTwoPin.PCIE < 8 ∧ exTwoPin.UART_INTERRUPT = true ∧
    exTwoPin.UART_TWOPIN = true ∧
    bitOf (uartInit exTwoPin exState).PCMSK exTwoPin.UART_RX = true ∧
    bitOf (uartInit exTwoPin exState).GIMSK exTwoPin.PCIE = true :=
  ⟨by decide, by decide, by decide, by decide,
    (C7_pin_change_interrupt_two_pin_only exTwoPin exState (by decide) (by decide)
      (by decide)).1 (by decide)⟩

/-- C8: in every build configuration (in the two-pin build with TX and RX different pins)
`uartInit` from any state leaves bit RX of `DDRB` and bit RX of `PORTB` at 0. -/
theorem C8_rx_input_no_pullup (cfg : Config) (s : AVR)
    (h : cfg.UART_TWOPIN = true → cfg.UART_TX ≠ cfg.UART_RX) :
    bitOf (uartInit cfg s).DDRB cfg.UART_RX = false ∧
      bitOf (uartInit cfg s).PORTB cfg.UART_RX = false := by
  cases h2 : cfg.UART_TWOPIN
  · simp [uartInit, writePORTB, h2, bitOf_byteAndNot_self]
  · have hne := h h2
    cases hi : cfg.UART_INTERRUPT <;>
      simp [uartInit, writePORTB, h2, hi,
        bitOf_byteOr_clear _ _ _ hne (bitOf_byteAndNot_self _ _)]

/-- Witness for C8: the two-pin example, whose TX and RX pins differ. -/
theorem C8_rx_input_no_pullup_witness :
    (exTwoPin.UART_TWOPIN = true → exTwoPin.UART_TX ≠ exTwoPin.UART_RX) ∧
    bitOf (uartInit exTwoPin exState).DDRB exTwoPin.UART_RX = false ∧
      bitOf (uartInit exTwoPin exState).PORTB exTwoPin.UART_RX = false :=
  ⟨by decide, C8_rx_input_no_pullup exTwoPin exState (by decide)⟩

/-- C9: `uartInit` changes nothing but the documented bits. For every bit `i` of a register:
bit `i` of `DDRB` and of `PORTB` is unchanged unless `i` is RX or, in the two-pin build, TX;
bit `i` of `PCMSK` is unchanged unless `i` is RX; bit `i` of `GIMSK` is unchanged unless `i`
is `PCIE`; without `UART_INTERRUPT` both `PCMSK` and `GIMSK` are unchanged entirely; and the
global interrupt flag is unchanged. -/
theorem C9_uartInit_frame (cfg : Config) (s : AVR) (i : Nat) (hi : i < 8) :
    (i ≠ cfg.UART_RX → (cfg.UART_TWOPIN = true → i ≠ cfg.UART_TX) →
      bitOf (uartInit cfg s).DDRB i = bitOf s.DDRB i ∧
      bitOf (uartInit cfg s).PORTB i = bitOf s.PORTB i) ∧
    (i ≠ cfg.UART_RX → bitOf (uartInit cfg s).PCMSK i = bitOf s.PCMSK i) ∧
    (i ≠ cfg.PCIE → bitOf (uartInit cfg s).GIMSK i = bitOf s.GIMSK i) ∧
    (cfg.UART_INTERRUPT = false →
      (uartInit cfg s).PCMSK = s.PCMSK ∧ (uartInit cfg s).GIMSK = s.GIMSK) ∧
    (uartInit cfg s).I = s.I := by
  refine ⟨?_, ?_, ?_, ?_, ?_⟩
  · intro hrx htx
    cases h2 : cfg.UART_TWOPIN
    · simp [uartInit, writePORTB, h2, testBit_byteAndNot_other _ _ _ hi hrx]
    · have hne := htx h2
      cases h3 : cfg.UART_INTERRUPT <;>
        simp [uartInit, writePORTB, h2, h3, testBit_byteAndNot_other _ _ _ hi hrx,
          testBit_byteOr_other _ _ _ hi hne]
  · intro hrx
    cases h2 : cfg.UART_TWOPIN <;> cases h3 : cfg.UART_INTERRUPT <;>
      simp [uartInit, writePORTB, h2, h3, testBit_byteOr_other _ _ _ hi hrx]
  · intro hp
    cases h2 : cfg.UART_TWOPIN <;> cases h3 : cfg.UART_INTERRUPT <;>
      simp [uartInit, writePORTB, h2, h3, testBit_byteOr_other _ _ _ hi hp]
  · intro h3
    cases h2 : cfg.UART_TWOPIN <;> simp [uartInit, writePORTB, h2, h3]
  · cases h2 : cfg.UART_TWOPIN <;> cases h3 : cfg.UART_INTERRUPT <;>
      simp [uartInit, writePORTB, h2, h3]

/-- Witness for C9: bit 4 in the two-pin example (TX = 1, RX = 0, `PCIE` = 5). -/
theorem C9_uartInit_frame_witness :
    (4 < 8) ∧ (4 ≠ exTwoPin.UART_RX) ∧ (exTwoPin.UART_TWOPIN = true → 4 ≠ exTwoPin.UART_TX) ∧
    (4 ≠ exTwoPin.PCIE) ∧
    bitOf (uartInit exTwoPin exState).DDRB 4 = bitOf exState.DDRB 4 ∧
    bitOf (uartInit exTwoPin exState).PORTB 4 = bitOf exState.PORTB 4 ∧
    bitOf (uartInit exTwoPin exState).PCMSK 4 = bitOf exState.PCMSK 4 ∧
    bitOf (uartInit exTwoPin exState).GIMSK 4 = bitOf exState.GIMSK 4 ∧
    (uartInit exTwoPin exState).I = exState.I :=
  ⟨by decide, by decide, by decide, by decide,
    ((C9_uartInit_frame exTwoPin exState 4 (by decide)).1 (by decide) (by decide)).1,
    ((C9_uartInit_frame exTwoPin exState 4 (by decide)).1 (by decide) (by decide)).2,
    (C9_uartInit_frame exTwoPin exState 4 (by decide)).2.1 (by decide),
    (C9_uartInit_frame exTwoPin exState 4 (by decide)).2.2.1 (by decide),
    (C9_uartInit_frame exTwoPin exState 4 (by decide)).2.2.2.2⟩

/-- C10, as stated, fails: the bit loop makes 10 passes, not 8, when sending 0x00 in the
two-pin example. -/
theorem C10_counterexample :
    exState.loopPasses = 0 ∧
      (uartSend exTwoPin 265 0x00 exState).map (fun s => s.loopPasses) = some 10 ∧
      (uartSend exTwoPin 265 0x00 exState).map (fun s => s.loopPasses) ≠ some 8 := by
  decide

/-- C10, amended: with TX a valid bit number and enough fuel, the bit loop of `uartSend(v)`
ends after exactly 10 passes whatever the bits of `v`; the ten `out` writes put bits 0 to 7
of `v` on the TX bit and then high twice, so the pin is left high after the 8th data bit. -/
theorem C10_bit_loop_ten_passes (cfg : Config) (fuel v : Nat) (s : AVR)
    (htx : cfg.UART_TX < 8) (hf : 265 ≤ fuel) :
    ∃ s' w0 start outs post, uartSend cfg fuel v s = some s' ∧
      s'.loopPasses = s.loopPasses + 10 ∧
      s'.writes = s.writes ++ w0 :: start :: (outs ++ post) ∧
      outs.length = 10 ∧
      levels cfg outs =
        [v.testBit 0, v.testBit 1, v.testBit 2, v.testBit 3, v.testBit 4, v.testBit 5,
          v.testBit 6, v.testBit 7, true, true] ∧
      post.length = (if cfg.UART_ONEPIN then 1 else 0) :=
  ⟨sendEnd cfg v s, ⟨byteOr s.PORTB (1 <<< cfg.UART_TX), s.DDRB, s.I, s.cycles, s.ch⟩,
    ⟨startPORTB cfg s, sendDDRB cfg s, false, s.cycles + 2, v % 256⟩,
    loopWrites cfg (startPORTB cfg s) (sendDDRB cfg s) false (delayCount cfg.TXDELAY) 10
      (3 * 256 + v % 256) (s.cycles + 5),
    releaseWrites cfg s, uartSend_eq cfg fuel v s (delayCount_fuel cfg fuel hf), rfl, rfl,
    length_loopWrites _ _ _ _ _ _ _ _, levels_frame_loopWrites cfg v _ _ _ _ _ htx,
    length_releaseWrites cfg s⟩

/-- Witness for C10 amended: the two-pin example sending 0xFF. -/
theorem C10_bit_loop_ten_passes_witness :
    exTwoPin.UART_TX < 8 ∧ 265 ≤ 265 ∧
    ∃ s' w0 start outs post, uartSend exTwoPin 265 0xFF exState = some s' ∧
      s'.loopPasses = exState.loopPasses + 10 ∧
      s'.writes = exState.writes ++ w0 :: start :: (outs ++ post) ∧
      outs.length = 10 ∧
      levels exTwoPin outs =
        [(0xFF).testBit 0, (0xFF).testBit 1, (0xFF).testBit 2, (0xFF).testBit 3,
          (0xFF).testBit 4, (0xFF).testBit 5, (0xFF).testBit 6, (0xFF).testBit 7, true, true] ∧
      post.length = (if exTwoPin.UART_ONEPIN then 1 else 0) :=
  ⟨by decide, by decide,
    C10_bit_loop_ten_passes exTwoPin 265 0xFF exState (by decide) (by decide)⟩

/-- C11: for `TXDELAY` from 1 to 255, one run of the delay loop entered with `r18 = TXDELAY`
takes exactly `3 * TXDELAY - 1` cycles, and in every call of `uartSend(v)` any two consecutive
`out` writes of the bit loop complete exactly `7 + 3 * TXDELAY` cycles apart, whatever the
bit position and the value `v`. -/
theorem C11_data_bit_period (cfg : Config) (fuel v : Nat) (s : AVR)
    (h1 : 1 ≤ cfg.TXDELAY) (h255 : cfg.TXDELAY ≤ 255) (hf : 265 ≤ fuel) :
    (∀ (f : Nat) (t : AVR), t.r18 = cfg.TXDELAY → 255 ≤ f →
      ∃ t', txDelay f t = some t' ∧ t'.cycles = t.cycles + (3 * cfg.TXDELAY - 1)) ∧
    ∃ s' w0 start outs post, uartSend cfg fuel v s = some s' ∧
      s'.writes = s.writes ++ w0 :: start :: (outs ++ post) ∧
      outs.length = 10 ∧
      post.length = (if cfg.UART_ONEPIN then 1 else 0) ∧
      gaps (outs.map (fun w => w.cycle)) = List.replicate 9 (7 + 3 * cfg.TXDELAY) := by
  constructor
  · intro f t hr hfu
    exact ⟨_, txDelay_run cfg.TXDELAY f t h1 (by omega)
      (by rw [hr, Nat.mod_eq_of_lt (by omega)]) (by omega), rfl⟩
  · refine ⟨sendEnd cfg v s, ⟨byteOr s.PORTB (1 <<< cfg.UART_TX), s.DDRB, s.I, s.cycles, s.ch⟩,
      ⟨startPORTB cfg s, sendDDRB cfg s, false, s.cycles + 2, v % 256⟩,
      loopWrites cfg (startPORTB cfg s) (sendDDRB cfg s) false (delayCount cfg.TXDELAY) 10
        (3 * 256 + v % 256) (s.cycles + 5),
      releaseWrites cfg s, uartSend_eq cfg fuel v s (delayCount_fuel cfg fuel hf), rfl,
      length_loopWrites _ _ _ _ _ _ _ _, length_releaseWrites cfg s, ?_⟩
    rw [gaps_loopWrites cfg _ _ _ _ 9, delayCount_eq _ h1 h255, Nat.add_comm]

/-- Witness for C11: the two-pin example with `TXDELAY` = 21 sending 0x55. -/
theorem C11_data_bit_period_witness :
    (1 ≤ 21) ∧ (21 ≤ 255) ∧ (265 ≤ 265) ∧
    (∃ t', txDelay 255 { exState with r18 := 21 } = some t' ∧
      t'.cycles = exState.cycles + (3 * 21 - 1)) ∧
    ∃ s' w0 start outs post,
      uartSend { exTwoPin with TXDELAY := 21 } 265 0x55 exState = some s' ∧
      s'.writes = exState.writes ++ w0 :: start :: (outs ++ post) ∧
      outs.length = 10 ∧
      post.length = (if exTwoPin.UART_ONEPIN then 1 else 0) ∧
      gaps (outs.map (fun w => w.cycle)) = List.replicate 9 (7 + 3 * 21) :=
  ⟨by decide, by decide, by decide,
    (C11_data_bit_period { exTwoPin with TXDELAY := 21 } 265 0x55 exState (by decide)
      (by decide) (by decide)).1 255 { exState with r18 := 21 } rfl (by decide),
    (C11_data_bit_period { exTwoPin with TXDELAY := 21 } 265 0x55 exState (by decide)
      (by decide) (by decide)).2⟩

set_option maxRecDepth 20000 in
/-- C12 evaluated on the code: with `TXDELAY` = 21 the bit period is 70 cycles, and in the
call `uartSend(0x55)` the start bit is held 71 cycles, from the end of `cbi` to the end of
the first `out`, while every following level of the bit loop is held 70 cycles. -/
theorem C12_start_bit_one_cycle_longer :
    bitPeriod 21 = 70 ∧
    (uartSend { exTwoPin with TXDELAY := 21 } 265 0x55 exState).map
        (fun s => gaps ((s.writes.drop 1).map (fun w => w.cycle)))
      = some [71, 70, 70, 70, 70, 70, 70, 70, 70, 70] := by
  decide

/-- C13: at 8 MHz and 115200 baud there is a `TXDELAY` from 1 to 255 (namely 21) whose bit
period `7 + 3 * TXDELAY`, the distance between consecutive `out` writes of every call of
`uartSend`, differs from the ideal period 8000000/115200 by at most 1% of the ideal. -/
theorem C13_tx_error_115200 :
    ∃ T, 1 ≤ T ∧ T ≤ 255 ∧ bitPeriod T = 7 + 3 * T ∧
      100 * |(bitPeriod T : Int) * 115200 - 8000000| ≤ 8000000 ∧
      ∀ (cfg : Config) (k v : Nat) (s : AVR), ∃ s' w0 start outs post,
        uartSend { cfg with TXDELAY := T } (265 + k) v s = some s' ∧
        s'.writes = s.writes ++ w0 :: start :: (outs ++ post) ∧
        outs.length = 10 ∧
        gaps (outs.map (fun w => w.cycle)) = List.replicate 9 (bitPeriod T) :=
  ⟨21, by decide, by decide, rfl, by decide,
    out_gaps_bitPeriod 21 (by decide) (by decide)⟩

/-- C14, as stated, fails: no `TXDELAY` from 1 to 255 gives a bit period `7 + 3 * TXDELAY`
within 2% of the ideal period 8000000/230400. -/
theorem C14_counterexample :
    ¬ ∃ T, 1 ≤ T ∧ T ≤ 255 ∧
      100 * |(bitPeriod T : Int) * 230400 - 8000000| ≤ 2 * 8000000 := by
  rintro ⟨T, _, _, h⟩
  unfold bitPeriod at h
  push_cast at h
  rcases abs_cases ((7 + 3 * (T : Int)) * 230400 - 8000000) with ⟨he, _⟩ | ⟨he, _⟩ <;>
    rw [he] at h <;> omega

/-- C14, amended: at 8 MHz and 230400 baud there is a `TXDELAY` from 1 to 255 (namely 9)
whose bit period `7 + 3 * TXDELAY`, the distance between consecutive `out` writes of every
call of `uartSend`, differs from the ideal period 8000000/230400 by at most 2.08% of the
ideal, which is more than 2%. -/
theorem C14_tx_error_230400 :
    ∃ T, 1 ≤ T ∧ T ≤ 255 ∧ bitPeriod T = 7 + 3 * T ∧
      10000 * |(bitPeriod T : Int) * 230400 - 8000000| ≤ 208 * 8000000 ∧
      2 * 8000000 < 100 * |(bitPeriod T : Int) * 230400 - 8000000| ∧
      ∀ (cfg : Config) (k v : Nat) (s : AVR), ∃ s' w0 start outs post,
        uartSend { cfg with TXDELAY := T } (265 + k) v s = some s' ∧
        s'.writes = s.writes ++ w0 :: start :: (outs ++ post) ∧
        outs.length = 10 ∧
        gaps (outs.map (fun w => w.cycle)) = List.replicate 9 (bitPeriod T) :=
  ⟨9, by decide, by decide, rfl, by decide, by decide,
    out_gaps_bitPeriod 9 (by decide) (by decide)⟩

/-- C15: for every bit `i` of the port other than TX, with enough fuel `uartSend(v)` returns,
and every value it writes to `PORTB` (the initial set, `cbi`, the ten `out` of the loop and
the final clear of the single-pin build) has bit `i` as `PORTB` had it before the call, bit
`i` of `DDRB` is unchanged at each of these writes, and on return bit `i` of `PORTB` and of
`DDRB` are as before the call. -/
theorem C15_other_pins_untouched (cfg : Config) (fuel v : Nat) (s : AVR) (i : Nat)
    (hi : i < 8) (hne : i ≠ cfg.UART_TX) (hf : 265 ≤ fuel) :
    ∃ s' ws, uartSend cfg fuel v s = some s' ∧ s'.writes = s.writes ++ ws ∧
      ws.length = 12 + (if cfg.UART_ONEPIN then 1 else 0) ∧
      (∀ w ∈ ws, bitOf w.value i = bitOf s.PORTB i ∧ bitOf w.ddrb i = bitOf s.DDRB i) ∧
      bitOf s'.PORTB i = bitOf s.PORTB i ∧ bitOf s'.DDRB i = bitOf s.DDRB i := by
  refine ⟨sendEnd cfg v s,
    ⟨byteOr s.PORTB (1 <<< cfg.UART_TX), s.DDRB, s.I, s.cycles, s.ch⟩ ::
      (asmWrites cfg v s ++ releaseWrites cfg s),
    uartSend_eq cfg fuel v s (delayCount_fuel cfg fuel hf), rfl, ?_, ?_, ?_, ?_⟩
  · simp only [List.length_cons, List.length_append, length_asmWrites, length_releaseWrites]
    omega
  · intro w hw
    simp only [List.mem_cons, List.mem_append] at hw
    rcases hw with rfl | hw | hw
    · exact ⟨testBit_byteOr_other _ _ _ hi hne, rfl⟩
    · exact asmWrites_other cfg v s i hi hne w hw
    · exact releaseWrites_other cfg s i hi hne w hw
  · simp only [sendEnd]
    split
    · rw [testBit_byteAndNot_other _ _ _ hi hne, bitOf_bldByte_other _ _ _ _ hi hne]
      exact bitOf_startPORTB_other cfg s i hi hne
    · rw [bitOf_bldByte_other _ _ _ _ hi hne]
      exact bitOf_startPORTB_other cfg s i hi hne
  · simp only [sendEnd]
    split
    · rw [testBit_byteAndNot_other _ _ _ hi hne]
      exact bitOf_sendDDRB_other cfg s i hi hne
    · rfl

/-- Witness for C15: bit 4 in the single-pin example (TX = 3) sending 0xC3. -/
theorem C15_other_pins_untouched_witness :
    (4 < 8) ∧ (4 ≠ exOnePin.UART_TX) ∧ (265 ≤ 265) ∧
    ∃ s' ws, uartSend exOnePin 265 0xC3 exState = some s' ∧
      s'.writes = exState.writes ++ ws ∧
      ws.length = 12 + (if exOnePin.UART_ONEPIN then 1 else 0) ∧
      (∀ w ∈ ws, bitOf w.value 4 = bitOf exState.PORTB 4 ∧
        bitOf w.ddrb 4 = bitOf exState.DDRB 4) ∧
      bitOf s'.PORTB 4 = bitOf exState.PORTB 4 ∧ bitOf s'.DDRB 4 = bitOf exState.DDRB 4 :=
  ⟨by decide, by decide, by decide,
    C15_other_pins_untouched exOnePin 265 0xC3 exState 4 (by decide) (by decide) (by decide)⟩

/-- C16: for `TXDELAY` from 0 to 255 and enough fuel, a run of the delay loop entered with
`r18 = TXDELAY` ends after `TXDELAY` passes (256 passes when `TXDELAY` is 0), and
`uartSend(v)` returns after exactly 10 passes of the bit loop; the shifted byte logged at
pass `k + 1` is the word `0b11vvvvvvvv` shifted right by `k + 1`, which is non-zero after
each of passes 1 to 9 and zero after pass 10. -/
theorem C16_uartSend_terminates (cfg : Config) (fuel v : Nat) (s : AVR)
    (hT : cfg.TXDELAY ≤ 255) (hf : 265 ≤ fuel) :
    (∀ (f : Nat) (t : AVR), t.r18 = cfg.TXDELAY → 256 ≤ f →
      ∃ t', txDelay f t = some t' ∧
        t'.delayPasses = t.delayPasses + (if cfg.TXDELAY = 0 then 256 else cfg.TXDELAY)) ∧
    ∃ s' w0 start outs post, uartSend cfg fuel v s = some s' ∧
      s'.writes = s.writes ++ w0 :: start :: (outs ++ post) ∧
      post.length = (if cfg.UART_ONEPIN then 1 else 0) ∧
      s'.loopPasses = s.loopPasses + 10 ∧
      s'.delayPasses
        = s.delayPasses + 10 * (if cfg.TXDELAY = 0 then 256 else cfg.TXDELAY) ∧
      outs.map (fun w => w.shift)
        = (List.range 10).map (fun k => (3 * 256 + v % 256) / 2 ^ (k + 1) % 256) ∧
      (∀ k, k < 9 → (3 * 256 + v % 256) / 2 ^ (k + 1) % 256 ≠ 0) ∧
      (3 * 256 + v % 256) / 2 ^ 10 % 256 = 0 := by
  have hmod : v % 256 < 256 := Nat.mod_lt _ (by norm_num)
  constructor
  · intro f t hr hfu
    have hle := delayCount_le cfg.TXDELAY
    refine ⟨_, txDelay_run (delayCount cfg.TXDELAY) f t (delayCount_pos _) hle
      (by rw [hr]; exact delayCount_mod _ (by omega)) (by omega), ?_⟩
    simp only [delayCount_eq_ite _ hT]
  · refine ⟨sendEnd cfg v s, ⟨byteOr s.PORTB (1 <<< cfg.UART_TX), s.DDRB, s.I, s.cycles, s.ch⟩,
      ⟨startPORTB cfg s, sendDDRB cfg s, false, s.cycles + 2, v % 256⟩,
      loopWrites cfg (startPORTB cfg s) (sendDDRB cfg s) false (delayCount cfg.TXDELAY) 10
        (3 * 256 + v % 256) (s.cycles + 5),
      releaseWrites cfg s, uartSend_eq cfg fuel v s (delayCount_fuel cfg fuel hf), rfl,
      length_releaseWrites cfg s, rfl, ?_, shift_loopWrites _ _ _ _ _ 10 _ _, ?_, ?_⟩
    · simp only [sendEnd, delayCount_eq_ite _ hT]
    · intro k hk
      exact frame_shift_ne (v % 256) (k + 1) hmod (by omega) (by omega)
    · exact frame_shift_end (v % 256) hmod

/-- Witness for C16: the single-pin example with `TXDELAY` = 0 sending 0xFF. -/
theorem C16_uartSend_terminates_witness :
    (0 ≤ 255) ∧ (265 ≤ 265) ∧
    (∃ t', txDelay 256 { exState with r18 := 0 } = some t' ∧
      t'.delayPasses = exState.delayPasses + 256) ∧
    ∃ s' w0 start outs post,
      uartSend { exOnePin with TXDELAY := 0 } 265 0xFF exState = some s' ∧
      s'.writes = exState.writes ++ w0 :: start :: (outs ++ post) ∧
      post.length = (if exOnePin.UART_ONEPIN then 1 else 0) ∧
      s'.loopPasses = exState.loopPasses + 10 ∧
      s'.delayPasses = exState.delayPasses + 10 * 256 ∧
      outs.map (fun w => w.shift)
        = (List.range 10).map (fun k => (3 * 256 + 0xFF % 256) / 2 ^ (k + 1) % 256) ∧
      (∀ k, k < 9 → (3 * 256 + 0xFF % 256) / 2 ^ (k + 1) % 256 ≠ 0) ∧
      (3 * 256 + 0xFF % 256) / 2 ^ 10 % 256 = 0 :=
  ⟨by decide, by decide,
    (C16_uartSend_terminates { exOnePin with TXDELAY := 0 } 265 0xFF exState (by decide)
      (by decide)).1 256 { exState with r18 := 0 } rfl (by decide),
    (C16_uartSend_terminates { exOnePin with TXDELAY := 0 } 265 0xFF exState (by decide)
      (by decide)).2⟩

end TinyUart
